import Mathlib

/-!
Verification of the protium single-object durable store.

The development is a shallow embedding of the Rust sources:

  * src/error.rs        — the error enumeration (`Error`);
  * src/file_storage.rs — the chunked file format and the `FileStorage`
    engine (chunk reading, `load`, `store_object`, `store_data`);
  * src/lib.rs          — the transaction registry (`Transactions`) and
    the store facade (`Protium`).

Modelling conventions:

  * bytes are `Nat` (every byte produced by the code is < 256; the readers
    are total on arbitrary values);
  * a file is a `List Nat` of its bytes; the file system is modelled by
    the optional contents of the main path and of the temporary path;
  * Rust `Result<A, Error>` is `Except Error A`; the fallible `pack` and
    `unpack` of the `Packable` trait return `Option (List Nat)` and
    `Option T` (Err(()) is `none`);
  * I/O failures are not modelled: file operations are total, so the
    `Error.Io` constructor of src/error.rs is omitted;
  * the Rust panics (unregistered transaction in `Protium::apply`,
    duplicate key in `Transactions::register`) are modelled as `none`
    results of `Option`-valued functions;
  * reading happens only in `load`, which is invoked exactly once, right
    after construction, so the file handle is modelled as a `Bool` (open
    or absent) and reads parse the main file from offset 0; appends go to
    the end of the file, matching the append-mode handle.
-/

set_option autoImplicit false

namespace Protium

/-- The recoverable error kinds of src/error.rs (the `Io` wrapper is not
modelled because the embedding has no fallible file operations). -/
inductive Error where
  | ObjectPack
  | ObjectUnpack
  | TransactionPack
  | TransactionUnpack
  | TransactionUnregistered
deriving DecidableEq, Repr

/-- A packed transaction together with its key, mirroring
`PackedTransaction(pub TransactionKey, pub Vec<u8>)` of src/lib.rs.
The packed object `PackedObject` is represented by a bare `List Nat`. -/
structure PackedTransaction where
  key : Nat
  data : List Nat
deriving DecidableEq, Repr

/-- Little-endian four-byte encoding of a `u32`, as produced by
`LittleEndian::write_u32`; the `as u32` casts in the source wrap, which
the digit extraction below reproduces for any `Nat`. -/
def le32 (n : Nat) : List Nat :=
  [n % 256, n / 256 % 256, n / 65536 % 256, n / 16777216 % 256]

/-- Little-endian four-byte decoding, as performed by
`read_u32::<LittleEndian>` and `LittleEndian::read_u32`: consumes four
bytes and returns their value together with the remaining bytes; fewer
than four available bytes is `UnexpectedEOF`, i.e. `none`. -/
def readU32LE : List Nat → Option (Nat × List Nat)
  | a :: b :: c :: d :: rest =>
      some (a + 256 * b + 65536 * c + 16777216 * d, rest)
  | _ => none

/-- One chunk: a four-byte little-endian length prefix followed by the
payload (`FileStorage::store_object` framing). -/
def encodeChunk (payload : List Nat) : List Nat :=
  le32 payload.length ++ payload

/-- One log-entry chunk: its payload is the four-byte little-endian key
followed by the packed transaction (`FileStorage::store_data` framing). -/
def encodeEntry (t : PackedTransaction) : List Nat :=
  le32 (t.data.length + 4) ++ le32 t.key ++ t.data

/-- The encoding of a list of log entries, in order. -/
def encodeEntries (l : List PackedTransaction) : List Nat :=
  (l.map encodeEntry).flatten

/-- `FileStorage::read_chunk` (src/file_storage.rs, lines 68-88) on the
unread suffix of the file: reads the length header (absent or short
header yields `none`), then takes exactly `length` bytes; if fewer are
available the chunk is reported absent, not an error. -/
def read_chunk (bytes : List Nat) : Option (List Nat × List Nat) :=
  match readU32LE bytes with
  | none => none
  | some (length, rest) =>
      if length ≤ rest.length then some (rest.take length, rest.drop length)
      else none

/-- `FileStorage::read_transaction` (src/file_storage.rs, lines 94-108):
reads a chunk; a chunk of fewer than four bytes is dropped (`none`);
otherwise the first four bytes are the key (`split_off(4)` followed by
`read_u32`) and the remainder is the packed payload. `readU32LE` on the
chunk data is `none` exactly when `data.len() < 4`. -/
def read_transaction (bytes : List Nat) :
    Option (PackedTransaction × List Nat) :=
  match read_chunk bytes with
  | none => none
  | some (data, rest) =>
      match readU32LE data with
      | none => none
      | some (code, payload) => some (⟨code, payload⟩, rest)

/-- Fuel-indexed form of the reading loop of `FileStorage::load`
(src/file_storage.rs, lines 121-131): reads log entries until
`read_transaction` reports none, collecting them in file order. The
fuel only serves termination; a successful `read_transaction` consumes
at least the four header bytes, so a fuel of the byte count never runs
out (`read_transactions_fuel_irrel` below). -/
def read_transactions_fuel : Nat → List Nat → List PackedTransaction
  | 0, _ => []
  | fuel + 1, bytes =>
      match read_transaction bytes with
      | none => []
      | some (t, rest) => t :: read_transactions_fuel fuel rest

/-- The reading loop of `FileStorage::load`, with enough fuel to read
every entry of the given bytes. -/
def read_transactions (bytes : List Nat) : List PackedTransaction :=
  read_transactions_fuel bytes.length bytes

/-- The pure part of `FileStorage::load`: the first chunk is the packed
snapshot; the remaining chunks are the log entries. -/
def loadBytes (bytes : List Nat) :
    Option (List Nat × List PackedTransaction) :=
  match read_chunk bytes with
  | none => none
  | some (object, rest) => some (object, read_transactions rest)

/-- The state of a `FileStorage<T>` (src/file_storage.rs, lines 15-22)
together with the two file-system locations it owns. `main` and `temp`
are the optional contents of the file at `base_path` and at `temp_path`
(`none` when the path does not exist); `fileOpen` models whether the
`file: Option<File>` handle is `Some`. -/
structure FileStorage where
  main : Option (List Nat)
  temp : Option (List Nat)
  fileOpen : Bool
  needs_initial_compact : Bool
  transaction_count : Nat
deriving DecidableEq, Repr

/-- `FileStorage::new` (src/file_storage.rs, lines 35-61): if the main
path is absent and the temporary path is absent, succeed with no open
handle; if only the temporary path is present, rename it onto the main
path and open the result; if the main path exists, open it for
read/append and leave the temporary file alone. -/
def FileStorage.new (main temp : Option (List Nat)) : FileStorage :=
  match main with
  | some m =>
      { main := some m, temp := temp, fileOpen := true,
        needs_initial_compact := true, transaction_count := 0 }
  | none =>
      match temp with
      | none =>
          { main := none, temp := none, fileOpen := false,
            needs_initial_compact := true, transaction_count := 0 }
      | some t =>
          { main := some t, temp := none, fileOpen := true,
            needs_initial_compact := true, transaction_count := 0 }

/-- `FileStorage::load` (src/file_storage.rs, lines 112-132), as invoked
on a freshly constructed storage (read offset 0): with no open handle
every `read_chunk` is `none`, so the result is `none`; otherwise the
first chunk is the snapshot (`none` if it is broken) and the following
chunks are read as log entries, setting `transaction_count` to the
number of entries successfully read. -/
def FileStorage.load (s : FileStorage) :
    FileStorage × Option (List Nat × List PackedTransaction) :=
  if s.fileOpen then
    match s.main with
    | none => (s, none)
    | some bytes =>
        match loadBytes bytes with
        | none => (s, none)
        | some (object, txs) =>
            ({ s with transaction_count := txs.length }, some (object, txs))
  else (s, none)

/-- `FileStorage::store_object` (src/file_storage.rs, lines 134-165).
`packResult` is the outcome of `object.pack()`. On pack failure the
state is unchanged. Otherwise the chunk is written to the temporary
path, which is opened with `write(true).create(true)` and WITHOUT
`truncate(true)`: the chunk lands at offset 0 on top of any pre-existing
temporary contents, whose tail beyond the chunk survives. The handle is
then dropped, the main file removed if present, the temporary file
renamed onto the main path (so `temp` becomes `none`), the counter reset,
the forced-compaction flag cleared and the main file reopened. -/
def FileStorage.store_object (s : FileStorage) (packResult : Option (List Nat)) :
    FileStorage × Except Error Unit :=
  match packResult with
  | none => (s, .error .ObjectPack)
  | some packed =>
      let chunk := encodeChunk packed
      let newTemp := chunk ++ (s.temp.getD []).drop chunk.length
      ({ main := some newTemp, temp := none, fileOpen := true,
         needs_initial_compact := false, transaction_count := 0 }, .ok ())

/-- `FileStorage::store_data` (src/file_storage.rs, lines 167-190).
`objPack` and `txPack` are the outcomes of `object.pack()` and
`transaction.pack()`, and `key` is `R::key()`. Compaction (a call to
`store_object`) happens exactly when no handle is open, the
forced-compaction flag is set, or the pending counter has reached 16;
otherwise one log-entry chunk is appended to the main file and the
counter is incremented. -/
def FileStorage.store_data (s : FileStorage) (objPack : Option (List Nat))
    (key : Nat) (txPack : Option (List Nat)) : FileStorage × Except Error Unit :=
  if s.fileOpen = false ∨ s.needs_initial_compact = true ∨ 16 ≤ s.transaction_count then
    s.store_object objPack
  else
    match txPack with
    | none => (s, .error .TransactionPack)
    | some packed =>
        let entry := le32 (packed.length + 4) ++ le32 key ++ packed
        ({ s with main := some (s.main.getD [] ++ entry),
                  transaction_count := s.transaction_count + 1 }, .ok ())

/-- The serialization contract of the `Packable` trait (src/lib.rs,
lines 18-28) for a domain type `T`: fallible pack and unpack. -/
structure PackableImpl (T : Type) where
  pack : T → Option (List Nat)
  unpack : List Nat → Option T

/-- One implementation of `Transaction<T>` for a transaction type `R`
(src/lib.rs, lines 31-38): its `Packable` methods, its key and its
`apply`. -/
structure TransactionImpl (T : Type) (R : Type) where
  pack : R → Option (List Nat)
  unpack : List Nat → Option R
  key : Nat
  apply : R → T → T

/-- `apply_transaction` (src/lib.rs, lines 193-199): unpack the data as
`R` (a failure is `Error::TransactionUnpack`) and apply it to the
object. -/
def apply_transaction {T R : Type} (RT : TransactionImpl T R) (object : T)
    (data : List Nat) : Except Error T :=
  match RT.unpack data with
  | none => .error .TransactionUnpack
  | some r => .ok (RT.apply r object)

/-- `Transactions<T>` (src/lib.rs, lines 99-104): a map from transaction
key to the boxed closure built by `register`. The `BTreeMap` is modelled
as an association list; `register` refuses duplicate keys, so lookup
agrees with the map. -/
structure Transactions (T : Type) where
  transactions : List (Nat × (T → List Nat → Except Error T))

/-- `Transactions::new` (src/lib.rs, line 108). -/
def Transactions.new (T : Type) : Transactions T := ⟨[]⟩

/-- `Transactions::register` (src/lib.rs, lines 117-127): panics
(modelled as `none`) on a duplicated key, otherwise stores the closure
`|object, data| apply_transaction::<_, R>(object, data)` under
`R::key()`. -/
def Transactions.register {T R : Type} (txs : Transactions T)
    (RT : TransactionImpl T R) : Option (Transactions T) :=
  if (txs.transactions.lookup RT.key).isSome then none
  else some ⟨txs.transactions ++ [(RT.key, fun object data => apply_transaction RT object data)]⟩

/-- `Transactions::is_transaction_registered` (src/lib.rs, lines
130-133): a pure lookup of `R::key()`; only the numeric key of the type
parameter is consulted, so the model takes the key. -/
def Transactions.is_transaction_registered {T : Type} (txs : Transactions T)
    (key : Nat) : Bool :=
  (txs.transactions.lookup key).isSome

/-- The replay loop inside `Transactions::unpack` (src/lib.rs, lines
145-154): in list order, look the key up (absent is
`Error::TransactionUnregistered`), run the registered closure and
thread the updated object. -/
def Transactions.unpackLoop {T : Type} (txs : Transactions T) (result : T) :
    List PackedTransaction → Except Error T
  | [] => .ok result
  | tx :: rest =>
      match txs.transactions.lookup tx.key with
      | none => .error .TransactionUnregistered
      | some f =>
          match f result tx.data with
          | .error e => .error e
          | .ok result' => txs.unpackLoop result' rest

/-- `Transactions::unpack` (src/lib.rs, lines 140-157): unpack the
object (a failure is `Error::ObjectUnpack`), then replay the
transactions in order. `PI` supplies the `T: Packable` methods. -/
def Transactions.unpack {T : Type} (txs : Transactions T) (PI : PackableImpl T)
    (object : List Nat) (transactions : List PackedTransaction) : Except Error T :=
  match PI.unpack object with
  | none => .error .ObjectUnpack
  | some result => txs.unpackLoop result transactions

/-- The reference all-steps-succeed replay: `some` of the folded object
when every entry is registered and its closure succeeds, `none`
otherwise. Used to phrase order-sensitivity of the replay loop. -/
def replayOk {T : Type} (txs : Transactions T) (obj : T) :
    List PackedTransaction → Option T
  | [] => some obj
  | tx :: rest =>
      match txs.transactions.lookup tx.key with
      | none => none
      | some f =>
          match f obj tx.data with
          | .ok obj' => replayOk txs obj' rest
          | .error _ => none

/-- `Protium<T, S>` with `S = FileStorage` (src/lib.rs, lines 41-45). -/
structure Protium (T : Type) where
  object : T
  storage : FileStorage
  transactions : Transactions T

/-- `Protium::new` (src/lib.rs, lines 54-65): load from storage; on
`Some`, replay; on `None`, store and use `T::default()` (`default`
argument). -/
def Protium.new {T : Type} (PI : PackableImpl T) (default : T)
    (storage : FileStorage) (transactions : Transactions T) :
    Except Error (Protium T) :=
  match storage.load with
  | (storage', some (object, tx)) =>
      match transactions.unpack PI object tx with
      | .error e => .error e
      | .ok obj => .ok ⟨obj, storage', transactions⟩
  | (storage', none) =>
      let result := default
      match storage'.store_object (PI.pack result) with
      | (storage'', .ok _) => .ok ⟨result, storage'', transactions⟩
      | (_, .error e) => .error e

/-- `Protium::apply` (src/lib.rs, lines 72-80): panic (modelled as
`none`) when `R::key()` is not registered; otherwise mutate the
in-memory object with the own `apply` of the transaction, then call
`store_data` on the mutated object, surfacing its result. -/
def Protium.apply {T R : Type} (PI : PackableImpl T) (p : Protium T)
    (RT : TransactionImpl T R) (r : R) :
    Option (Protium T × Except Error Unit) :=
  if p.transactions.is_transaction_registered RT.key = false then none
  else
    let object := RT.apply r p.object
    let res := p.storage.store_data (PI.pack object) RT.key (RT.pack r)
    some ({ p with object := object, storage := res.1 }, res.2)

/-- A log entry the file format can represent faithfully: its key fits
in a `u32` and its chunk length (payload plus four key bytes) fits in
the `u32` length prefix. -/
def validEntry (t : PackedTransaction) : Prop :=
  t.key < 4294967296 ∧ t.data.length + 4 < 4294967296

instance (t : PackedTransaction) : Decidable (validEntry t) := by
  unfold validEntry; infer_instance

/-- The number of log-entry chunks physically present in the main file
after the snapshot: the length of the log that `load` would parse, zero
when the main file is absent or its snapshot chunk is broken. -/
def physCount (s : FileStorage) : Nat :=
  match s.main with
  | none => 0
  | some b =>
      match loadBytes b with
      | none => 0
      | some (_, l) => l.length

/-- The storage states reachable through the public protocol from a
construction with no stale temporary file: construct, perform the
initial `load` (as `Protium::new` does), then any sequence of
successful `store_object` / `store_data` calls whose packed sizes and
keys fit the `u32` fields of the format. -/
inductive ReachableFS : FileStorage → Prop
  | init (m : Option (List Nat)) : ReachableFS ((FileStorage.new m none).load).1
  | snapshot (s : FileStorage) (p : List Nat) : ReachableFS s →
      p.length < 4294967296 → ReachableFS (s.store_object (some p)).1
  | data (s : FileStorage) (op : List Nat) (k : Nat) (t : List Nat) :
      ReachableFS s → op.length < 4294967296 → k < 4294967296 →
      t.length + 4 < 4294967296 →
      ReachableFS (s.store_data (some op) k (some t)).1

/-- The inductive invariant carried by every `ReachableFS` state: no
stale temporary file; the pending counter matches the parsed log; a
closed handle means no main file; once the forced-compaction flag is
cleared the main file is exactly one snapshot chunk followed by the
encoded pending entries. -/
def StorageInv (s : FileStorage) : Prop :=
  s.temp = none ∧
  s.transaction_count = physCount s ∧
  (s.fileOpen = false → s.main = none) ∧
  (s.needs_initial_compact = false →
    s.fileOpen = true ∧
    ∃ p entries, p.length < 4294967296 ∧ (∀ t ∈ entries, validEntry t) ∧
      s.main = some (encodeChunk p ++ encodeEntries entries) ∧
      s.transaction_count = entries.length)

/-- A concrete domain object for end-to-end scenarios: a list of bytes;
pack and unpack are the identity and always succeed. -/
def demoPI : PackableImpl (List Nat) :=
  { pack := fun o => some o, unpack := fun b => some b }

/-- A concrete transaction for scenarios, in the mould of the
`TransactionAdd` of tests/common.rs: value `v` packs to `[v]`, key 1,
and applying appends `v` to the object. -/
def demoAdd : TransactionImpl (List Nat) Nat where
  pack := fun v => some [v]
  unpack := fun b => match b with | [v] => some v | _ => none
  key := 1
  apply := fun v obj => obj ++ [v]

/-- A registry holding only `demoAdd`. -/
def demoTxs : Transactions (List Nat) :=
  ((Transactions.new (List Nat)).register demoAdd).getD ⟨[]⟩

/-- Iterated `Protium::apply` of `demoAdd` transactions, stopping on a
panic or a persistence error. -/
def applyRun (p : Protium (List Nat)) : List Nat → Option (Protium (List Nat))
  | [] => some p
  | v :: rest =>
      match Protium.apply demoPI p demoAdd v with
      | some (p', .ok _) => applyRun p' rest
      | _ => none

/-- End-to-end scenario: initialize over an empty file system, then
apply the given values in order. -/
def demoRun (vals : List Nat) : Option (Protium (List Nat)) :=
  match Protium.new demoPI [] (FileStorage.new none none) demoTxs with
  | .ok p => applyRun p vals
  | .error _ => none

/-- The observable part of a scenario state: the in-memory object, the
main file bytes and the pending counter. -/
def observe (p : Protium (List Nat)) : List Nat × Option (List Nat) × Nat :=
  (p.object, p.storage.main, p.storage.transaction_count)

/-- A transaction instance whose pack always fails, to exercise the
persistence-error path of `Protium::apply` (like `TransactionAdd(255)`
of tests/common.rs). -/
def demoAddBad : TransactionImpl (List Nat) Nat where
  pack := fun _ => none
  unpack := fun b => match b with | [v] => some v | _ => none
  key := 1
  apply := fun v obj => obj ++ [v]

/-- A second transaction kind sharing the key of `demoAdd` but with
different apply semantics (doubling instead of appending is replaced
here by: prepending); used to show dispatch is by numeric key only. -/
def demoOther : TransactionImpl (List Nat) Nat where
  pack := fun v => some [v]
  unpack := fun b => match b with | [v] => some v | _ => none
  key := 1
  apply := fun v obj => v :: obj

/-- A transaction instance with a key (99) that no demo registry holds. -/
def demoUnreg : TransactionImpl (List Nat) Nat where
  pack := fun v => some [v]
  unpack := fun b => match b with | [v] => some v | _ => none
  key := 99
  apply := fun v obj => obj ++ [v]

/-- Decidable equality of `Except` results, used to evaluate concrete
scenario outcomes. -/
instance {e a : Type} [DecidableEq e] [DecidableEq a] : DecidableEq (Except e a)
  | .ok x, .ok y =>
      if h : x = y then .isTrue (by rw [h]) else .isFalse (by simp [h])
  | .ok _, .error _ => .isFalse (by simp)
  | .error _, .ok _ => .isFalse (by simp)
  | .error x, .error y =>
      if h : x = y then .isTrue (by rw [h]) else .isFalse (by simp [h])

theorem read_transaction_shrinks {bytes : List Nat} {t : PackedTransaction}
    {rest : List Nat} (h : read_transaction bytes = some (t, rest)) :
    rest.length < bytes.length := by
  unfold read_transaction at h
  cases hc : read_chunk bytes with
  | none => rw [hc] at h; exact absurd h (by simp)
  | some v =>
      obtain ⟨data, r⟩ := v
      rw [hc] at h
      have hlen : r.length + 4 ≤ bytes.length := by
        unfold read_chunk at hc
        cases hr : readU32LE bytes with
        | none => rw [hr] at hc; exact absurd hc (by simp)
        | some w =>
            obtain ⟨len, r0⟩ := w
            rw [hr] at hc
            by_cases hle : len ≤ r0.length
            · simp only [hle, if_true, Option.some.injEq, Prod.mk.injEq] at hc
              have hlen0 : bytes.length = r0.length + 4 := by
                rcases bytes with - | ⟨a, - | ⟨b, - | ⟨c, - | ⟨d, rr⟩⟩⟩⟩
                · simp [readU32LE] at hr
                · simp [readU32LE] at hr
                · simp [readU32LE] at hr
                · simp [readU32LE] at hr
                · simp only [readU32LE, Option.some.injEq,
                    Prod.mk.injEq] at hr
                  simp [← hr.2]
              have : r.length ≤ r0.length := by rw [← hc.2]; simp
              omega
            · simp [hle] at hc
      cases hu : readU32LE data with
      | none => simp [hu] at h
      | some w =>
          obtain ⟨code, payload⟩ := w
          simp only [hu, Option.some.injEq, Prod.mk.injEq] at h
          obtain ⟨-, h2⟩ := h
          subst h2
          omega

theorem read_transactions_fuel_irrel :
    ∀ (fuel fuel' : Nat) (bytes : List Nat), bytes.length ≤ fuel →
      bytes.length ≤ fuel' →
      read_transactions_fuel fuel bytes = read_transactions_fuel fuel' bytes := by
  intro fuel
  induction fuel with
  | zero =>
      intro fuel' bytes h h'
      have hb : bytes = [] := List.length_eq_zero.mp (Nat.le_zero.mp h)
      subst hb
      cases fuel' with
      | zero => rfl
      | succ n => simp [read_transactions_fuel]; rfl
  | succ n ih =>
      intro fuel' bytes h h'
      cases fuel' with
      | zero =>
          have hb : bytes = [] := List.length_eq_zero.mp (Nat.le_zero.mp h')
          subst hb
          simp [read_transactions_fuel]; rfl
      | succ n' =>
          cases hrt : read_transaction bytes with
          | none => simp [read_transactions_fuel, hrt]
          | some v =>
              obtain ⟨t, rest⟩ := v
              have hs := read_transaction_shrinks hrt
              simp only [read_transactions_fuel, hrt]
              rw [ih n' rest (by omega) (by omega)]

theorem read_transactions_eq_nil {bytes : List Nat}
    (h : read_transaction bytes = none) : read_transactions bytes = [] := by
  unfold read_transactions
  cases hb : bytes.length with
  | zero => rfl
  | succ n => simp [read_transactions_fuel, h]

theorem read_transactions_eq_cons {bytes : List Nat} {t : PackedTransaction}
    {rest : List Nat} (h : read_transaction bytes = some (t, rest)) :
    read_transactions bytes = t :: read_transactions rest := by
  have hs := read_transaction_shrinks h
  unfold read_transactions
  cases hb : bytes.length with
  | zero => omega
  | succ n =>
      simp only [read_transactions_fuel, h]
      rw [read_transactions_fuel_irrel n rest.length rest (by omega) (by omega)]

theorem readU32LE_le32 (n : Nat) (rest : List Nat) :
    readU32LE (le32 n ++ rest) = some (n % 4294967296, rest) := by
  simp only [le32, List.cons_append, List.nil_append, readU32LE,
    Option.some.injEq, Prod.mk.injEq, and_true]
  omega

theorem le32_length (n : Nat) : (le32 n).length = 4 := by
  simp [le32]

theorem readU32LE_short {bytes : List Nat} (h : bytes.length < 4) :
    readU32LE bytes = none := by
  rcases bytes with - | ⟨a, - | ⟨b, - | ⟨c, - | ⟨d, rr⟩⟩⟩⟩
  · rfl
  · rfl
  · rfl
  · rfl
  · exfalso
    simp at h
    omega

theorem read_chunk_encodeChunk {p : List Nat} (hp : p.length < 4294967296)
    (rest : List Nat) : read_chunk (encodeChunk p ++ rest) = some (p, rest) := by
  unfold encodeChunk read_chunk
  rw [List.append_assoc, readU32LE_le32, Nat.mod_eq_of_lt hp]
  simp [List.take_left, List.drop_left]

theorem read_transaction_encodeEntry {t : PackedTransaction}
    (ht : validEntry t) (rest : List Nat) :
    read_transaction (encodeEntry t ++ rest) = some (t, rest) := by
  obtain ⟨hk, hd⟩ := ht
  have hch : encodeEntry t = encodeChunk (le32 t.key ++ t.data) := by
    unfold encodeEntry encodeChunk
    rw [List.length_append, le32_length]
    simp [Nat.add_comm]
  have hlen : (le32 t.key ++ t.data).length < 4294967296 := by
    rw [List.length_append, le32_length]; omega
  unfold read_transaction
  rw [hch, read_chunk_encodeChunk hlen]
  simp only [readU32LE_le32, Nat.mod_eq_of_lt hk]

theorem read_transactions_nil : read_transactions [] = [] := by
  apply read_transactions_eq_nil
  rfl

theorem read_transactions_encodeEntries {l : List PackedTransaction}
    (hl : ∀ t ∈ l, validEntry t) (rest : List Nat) :
    read_transactions (encodeEntries l ++ rest) = l ++ read_transactions rest := by
  induction l with
  | nil => simp [encodeEntries]
  | cons t l ih =>
      have ht : validEntry t := hl t (by simp)
      have hrec : ∀ u ∈ l, validEntry u := fun u hu => hl u (by simp [hu])
      have hstep : encodeEntries (t :: l) ++ rest =
          encodeEntry t ++ (encodeEntries l ++ rest) := by
        simp [encodeEntries]
      rw [hstep, read_transactions_eq_cons (read_transaction_encodeEntry ht _),
        ih hrec]
      simp

theorem read_transactions_encode {l : List PackedTransaction}
    (hl : ∀ t ∈ l, validEntry t) : read_transactions (encodeEntries l) = l := by
  have h := read_transactions_encodeEntries hl []
  simpa [read_transactions_nil] using h

theorem loadBytes_encode {p : List Nat} {l : List PackedTransaction}
    (hp : p.length < 4294967296) (hl : ∀ t ∈ l, validEntry t) :
    loadBytes (encodeChunk p ++ encodeEntries l) = some (p, l) := by
  unfold loadBytes
  rw [read_chunk_encodeChunk hp]
  simp only [read_transactions_encode hl]

theorem loadBytes_chunk {p : List Nat} (hp : p.length < 4294967296) :
    loadBytes (encodeChunk p) = some (p, []) := by
  have h := loadBytes_encode hp (l := []) (by simp)
  simpa [encodeEntries] using h

theorem encodeEntries_append (a b : List PackedTransaction) :
    encodeEntries (a ++ b) = encodeEntries a ++ encodeEntries b := by
  simp [encodeEntries]

theorem new_load_inv (m : Option (List Nat)) :
    StorageInv ((FileStorage.new m none).load).1 := by
  cases m with
  | none =>
      simp [StorageInv, FileStorage.new, FileStorage.load, physCount]
  | some b =>
      cases hb : loadBytes b with
      | none =>
          simp [StorageInv, FileStorage.new, FileStorage.load, hb, physCount]
      | some v =>
          obtain ⟨o, l⟩ := v
          simp [StorageInv, FileStorage.new, FileStorage.load, hb, physCount]

theorem store_object_inv {s : FileStorage} (hinv : StorageInv s)
    {p : List Nat} (hp : p.length < 4294967296) :
    StorageInv (s.store_object (some p)).1 := by
  obtain ⟨htemp, -, -, -⟩ := hinv
  have hres : (s.store_object (some p)).1 =
      { main := some (encodeChunk p), temp := none, fileOpen := true,
        needs_initial_compact := false, transaction_count := 0 } := by
    simp [FileStorage.store_object, htemp]
  rw [hres]
  refine ⟨rfl, ?_, by simp, ?_⟩
  · simp [physCount, loadBytes_chunk hp]
  · intro _hn
    refine ⟨rfl, p, [], hp, by simp, ?_, rfl⟩
    simp [encodeEntries]

theorem store_data_compacts {s : FileStorage}
    (h : s.fileOpen = false ∨ s.needs_initial_compact = true ∨
      16 ≤ s.transaction_count) (op : Option (List Nat)) (k : Nat)
    (tp : Option (List Nat)) : s.store_data op k tp = s.store_object op := by
  unfold FileStorage.store_data
  rw [if_pos h]

theorem store_data_append {s : FileStorage} (h1 : s.fileOpen = true)
    (h2 : s.needs_initial_compact = false) (h3 : s.transaction_count < 16)
    (op : Option (List Nat)) (k : Nat) (t : List Nat) :
    s.store_data op k (some t) =
      ({ s with main := some (s.main.getD [] ++ (le32 (t.length + 4) ++ le32 k ++ t)),
                transaction_count := s.transaction_count + 1 }, .ok ()) := by
  unfold FileStorage.store_data
  rw [if_neg (by simp [h1, h2]; omega)]

theorem store_data_pack_failure {s : FileStorage} (h1 : s.fileOpen = true)
    (h2 : s.needs_initial_compact = false) (h3 : s.transaction_count < 16)
    (op : Option (List Nat)) (k : Nat) :
    s.store_data op k none = (s, .error .TransactionPack) := by
  unfold FileStorage.store_data
  rw [if_neg (by simp [h1, h2]; omega)]

theorem store_data_inv {s : FileStorage} (hinv : StorageInv s)
    {op : List Nat} {k : Nat} {t : List Nat}
    (hop : op.length < 4294967296) (hk : k < 4294967296)
    (ht : t.length + 4 < 4294967296) :
    StorageInv (s.store_data (some op) k (some t)).1 := by
  by_cases hcond :
      s.fileOpen = false ∨ s.needs_initial_compact = true ∨ 16 ≤ s.transaction_count
  · rw [store_data_compacts hcond]
    exact store_object_inv hinv hop
  · push_neg at hcond
    obtain ⟨hopenne, hnicne, htcne⟩ := hcond
    have hopen : s.fileOpen = true := by
      cases h : s.fileOpen
      · exact absurd h hopenne
      · rfl
    have hnicf : s.needs_initial_compact = false := by
      cases h : s.needs_initial_compact
      · rfl
      · exact absurd h hnicne
    have htc : s.transaction_count < 16 := by omega
    obtain ⟨htemp, hcnt, hclosed, hnic⟩ := hinv
    obtain ⟨hopen', p, es, hplen, hval, hmain, hcount⟩ := hnic hnicf
    have hval' : ∀ u ∈ es ++ [(⟨k, t⟩ : PackedTransaction)], validEntry u := by
      intro u hu
      rcases List.mem_append.mp hu with h | h
      · exact hval u h
      · simp at h
        subst h
        exact ⟨hk, ht⟩
    have hmain2 : s.main.getD [] ++ (le32 (t.length + 4) ++ le32 k ++ t) =
        encodeChunk p ++ encodeEntries (es ++ [⟨k, t⟩]) := by
      rw [hmain, encodeEntries_append]
      simp [encodeEntry, encodeEntries]
    rw [store_data_append hopen hnicf htc]
    refine ⟨htemp, ?_, by simp [hopen], ?_⟩
    · simp only [physCount, hmain2]
      rw [loadBytes_encode hplen hval']
      simp [hcount]
    · intro _hn
      refine ⟨hopen, p, es ++ [⟨k, t⟩], hplen, hval', ?_, by simp [hcount]⟩
      simp only [hmain2]

theorem reachable_inv {s : FileStorage} (h : ReachableFS s) : StorageInv s := by
  induction h with
  | init m => exact new_load_inv m
  | snapshot s p _ hp ih => exact store_object_inv ih hp
  | data s op k t _ hop hk ht ih => exact store_data_inv ih hop hk ht

theorem store_object_clean {s : FileStorage} (htemp : s.temp = none)
    (p : List Nat) : s.store_object (some p) =
      ({ main := some (encodeChunk p), temp := none, fileOpen := true,
         needs_initial_compact := false, transaction_count := 0 }, .ok ()) := by
  simp [FileStorage.store_object, htemp]

theorem unpackLoop_stops {T : Type} (txs : Transactions T) :
    ∀ (pre : List PackedTransaction) (obj o' : T)
      (rest : List PackedTransaction), replayOk txs obj pre = some o' →
      txs.unpackLoop obj (pre ++ rest) = txs.unpackLoop o' rest := by
  intro pre
  induction pre with
  | nil =>
      intro obj o' rest h
      simp only [replayOk, Option.some.injEq] at h
      rw [h]
      rfl
  | cons tx tl ih =>
      intro obj o' rest h
      unfold replayOk at h
      cases hl : txs.transactions.lookup tx.key with
      | none => rw [hl] at h; simp at h
      | some f =>
          rw [hl] at h
          cases hf : f obj tx.data with
          | error e => simp [hf] at h
          | ok obj' =>
              simp only [hf] at h
              have hrec := ih obj' o' rest h
              simp only [List.cons_append, Transactions.unpackLoop, hl, hf]
              exact hrec

theorem lookup_self_append {T : Type}
    (l : List (Nat × (T → List Nat → Except Error T))) (k : Nat)
    (f : T → List Nat → Except Error T) :
    (List.lookup k (l ++ [(k, f)])).isSome = true := by
  induction l with
  | nil => simp [List.lookup]
  | cons hd tl ih =>
      obtain ⟨k', f'⟩ := hd
      rw [List.cons_append, List.lookup]
      cases hk : k == k'
      · exact ih
      · rfl

/-- C1: `store_data` compacts, i.e. behaves as `store_object`, exactly
when the file handle is absent, the forced-compaction flag is set, or
the pending-entry counter has reached 16; otherwise it appends one
log-entry chunk and increments the counter. In the concrete scenario
starting from a fresh snapshot of the empty demo object, the first 16
`apply` calls each append (leaving the snapshot plus 16 entries and
counter 16), and the 17th call rewrites the file as a single snapshot
chunk reflecting all 17 applied transactions, with no log entries. -/
theorem store_data_compaction_spec :
    (∀ (s : FileStorage) (op : Option (List Nat)) (k : Nat)
       (tp : Option (List Nat)),
      (s.fileOpen = false ∨ s.needs_initial_compact = true ∨
        16 ≤ s.transaction_count) →
      s.store_data op k tp = s.store_object op) ∧
    (∀ (s : FileStorage) (op : Option (List Nat)) (k : Nat) (t : List Nat),
      s.fileOpen = true → s.needs_initial_compact = false →
      s.transaction_count < 16 →
      s.store_data op k (some t) =
        ({ s with main := some (s.main.getD [] ++ (le32 (t.length + 4) ++ le32 k ++ t)),
                  transaction_count := s.transaction_count + 1 }, .ok ())) ∧
    (demoRun (List.range 16)).map observe =
      some (List.range 16,
        some (encodeChunk [] ++
          encodeEntries ((List.range 16).map fun v => ⟨1, [v]⟩)), 16) ∧
    (demoRun (List.range 17)).map observe =
      some (List.range 17, some (encodeChunk (List.range 17)), 0) :=
  ⟨fun _ op k tp h => store_data_compacts h op k tp,
   fun _ op k t h1 h2 h3 => store_data_append h1 h2 h3 op k t,
   by decide, by decide⟩

theorem store_data_compaction_spec_witness :
    (FileStorage.new none none).store_data (some [1]) 1 (some [2]) =
      (FileStorage.new none none).store_object (some [1]) :=
  store_data_compaction_spec.1 (FileStorage.new none none) (some [1]) 1
    (some [2]) (by decide)

/-- C2: a chunk whose length header has fewer than four bytes available,
or whose header declares a length greater than the remaining bytes,
reads as no chunk, never as an error; `loadBytes` is therefore `none`
when the snapshot chunk itself is broken, and a well-formed snapshot
and log followed by a broken chunk load as the snapshot plus exactly
the intact entries, the broken chunk and everything after it being
discarded. -/
theorem read_chunk_corruption_tolerance :
    (∀ bytes : List Nat, bytes.length < 4 → read_chunk bytes = none) ∧
    (∀ (bytes : List Nat) (n : Nat) (rest : List Nat),
      readU32LE bytes = some (n, rest) → rest.length < n →
      read_chunk bytes = none) ∧
    (∀ bytes : List Nat, read_chunk bytes = none → loadBytes bytes = none) ∧
    (∀ (p : List Nat) (txs : List PackedTransaction) (junk : List Nat),
      p.length < 4294967296 → (∀ t ∈ txs, validEntry t) →
      read_chunk junk = none →
      loadBytes (encodeChunk p ++ (encodeEntries txs ++ junk)) =
        some (p, txs)) := by
  refine ⟨?_, ?_, ?_, ?_⟩
  · intro bytes h
    unfold read_chunk
    rw [readU32LE_short h]
  · intro bytes n rest h hlt
    simp only [read_chunk, h]
    rw [if_neg (by omega)]
  · intro bytes h
    unfold loadBytes
    rw [h]
  · intro p txs junk hp hval hchunk
    have hrt : read_transaction junk = none := by
      unfold read_transaction
      rw [hchunk]
    have hnil : read_transactions junk = [] := read_transactions_eq_nil hrt
    unfold loadBytes
    rw [read_chunk_encodeChunk hp]
    simp [read_transactions_encodeEntries hval, hnil]

theorem read_chunk_corruption_tolerance_witness :
    loadBytes (encodeChunk [3, 4] ++
        (encodeEntries [⟨1, [5]⟩] ++ [5, 0, 0, 0, 2, 0, 0])) =
      some ([3, 4], [⟨1, [5]⟩]) :=
  read_chunk_corruption_tolerance.2.2.2 [3, 4] [⟨1, [5]⟩]
    [5, 0, 0, 0, 2, 0, 0] (by decide) (by decide) (by decide)

/-- C3 (code bug): `store_object` opens the temporary file with
`write(true).create(true)` but not `truncate(true)`, so with a
pre-existing longer temporary file the resulting main file is the
snapshot chunk followed by the stale tail of the old temporary file,
not exactly the single chunk the documentation describes; with no
pre-existing temporary file the main file is exactly the chunk
`02 00 00 00 01 02`. -/
theorem store_object_missing_truncate :
    (((⟨none, some (List.replicate 10 255), false, true, 0⟩ :
        FileStorage).store_object (some [1, 2])).1.main =
      some [2, 0, 0, 0, 1, 2, 255, 255, 255, 255]) ∧
    (((⟨none, some (List.replicate 10 255), false, true, 0⟩ :
        FileStorage).store_object (some [1, 2])).1.main ≠
      some [2, 0, 0, 0, 1, 2]) ∧
    (((⟨none, none, false, true, 0⟩ : FileStorage).store_object
        (some [1, 2])).1.main = some [2, 0, 0, 0, 1, 2]) := by
  decide

/-- C6: `load` reads the first chunk as the packed snapshot and every
following chunk as a log entry whose first four bytes are the
little-endian key and whose remaining bytes are the packed payload, in
file order; the concrete file of the spec parses as stated, and a
log-entry chunk shorter than four bytes is dropped and treated as the
end of the log, discarding everything after it. -/
theorem load_wellformed_parsing :
    loadBytes [2, 0, 0, 0, 3, 4,
               5, 0, 0, 0, 1, 0, 0, 0, 5,
               5, 0, 0, 0, 2, 0, 0, 0, 4] =
      some ([3, 4], [⟨1, [5]⟩, ⟨2, [4]⟩]) ∧
    (∀ (bytes data rest : List Nat), read_chunk bytes = some (data, rest) →
      data.length < 4 → read_transaction bytes = none) ∧
    loadBytes ([2, 0, 0, 0, 3, 4] ++ [2, 0, 0, 0, 9, 9] ++
               [5, 0, 0, 0, 1, 0, 0, 0, 5]) = some ([3, 4], []) := by
  refine ⟨by decide, ?_, by decide⟩
  intro bytes data rest hc hlen
  unfold read_transaction
  rw [hc]
  simp [readU32LE_short hlen]

theorem load_wellformed_parsing_witness :
    read_transaction [2, 0, 0, 0, 9, 9] = none :=
  load_wellformed_parsing.2.1 [2, 0, 0, 0, 9, 9] [9, 9] [] (by decide)
    (by decide)

/-- C7: constructing a `FileStorage` never requires the main file to
exist: with both files absent it succeeds with no open handle; with
only the temporary file present it renames the temporary file to the
main path and opens the result; with the main file present it opens it
and leaves the temporary file alone. -/
theorem open_time_recovery :
    FileStorage.new none none =
      ⟨none, none, false, true, 0⟩ ∧
    (∀ t : List Nat, FileStorage.new none (some t) =
      ⟨some t, none, true, true, 0⟩) ∧
    (∀ (m : List Nat) (t : Option (List Nat)),
      FileStorage.new (some m) t = ⟨some m, t, true, true, 0⟩) :=
  ⟨rfl, fun _ => rfl, fun _ _ => rfl⟩

/-- C4: replay first unpacks the snapshot, failing with the
object-unpack error when that fails; then, strictly in list order, it
fails with the unregistered-transaction error at the first entry whose
key has no registered closure, whatever comes after it; it fails with
the error of the first failing closure (in particular the
transaction-unpack error when a registered type cannot unpack the
payload); and it returns the fully replayed object exactly when every
step succeeds. -/
theorem replay_error_semantics {T : Type} (txs : Transactions T)
    (PI : PackableImpl T) :
    (∀ (bytes : List Nat) (l : List PackedTransaction),
      PI.unpack bytes = none → txs.unpack PI bytes l = .error .ObjectUnpack) ∧
    (∀ (bytes : List Nat) (obj : T) (pre : List PackedTransaction)
       (k : Nat) (d : List Nat) (post : List PackedTransaction) (o' : T),
      PI.unpack bytes = some obj → replayOk txs obj pre = some o' →
      txs.transactions.lookup k = none →
      txs.unpack PI bytes (pre ++ ⟨k, d⟩ :: post) =
        .error .TransactionUnregistered) ∧
    (∀ (bytes : List Nat) (obj : T) (pre : List PackedTransaction)
       (k : Nat) (d : List Nat) (post : List PackedTransaction) (o' : T)
       (f : T → List Nat → Except Error T) (e : Error),
      PI.unpack bytes = some obj → replayOk txs obj pre = some o' →
      txs.transactions.lookup k = some f → f o' d = .error e →
      txs.unpack PI bytes (pre ++ ⟨k, d⟩ :: post) = .error e) ∧
    (∀ {R : Type} (RT : TransactionImpl T R) (obj : T) (d : List Nat),
      RT.unpack d = none →
      apply_transaction RT obj d = .error .TransactionUnpack) ∧
    (∀ (bytes : List Nat) (obj : T) (l : List PackedTransaction) (o' : T),
      PI.unpack bytes = some obj → replayOk txs obj l = some o' →
      txs.unpack PI bytes l = .ok o') := by
  refine ⟨?_, ?_, ?_, ?_, ?_⟩
  · intro bytes l h
    unfold Transactions.unpack
    rw [h]
  · intro bytes obj pre k d post o' hobj hpre hlk
    unfold Transactions.unpack
    simp only [hobj]
    rw [unpackLoop_stops txs pre obj o' (⟨k, d⟩ :: post) hpre]
    simp [Transactions.unpackLoop, hlk]
  · intro bytes obj pre k d post o' f e hobj hpre hlk hf
    unfold Transactions.unpack
    simp only [hobj]
    rw [unpackLoop_stops txs pre obj o' (⟨k, d⟩ :: post) hpre]
    simp [Transactions.unpackLoop, hlk, hf]
  · intro R RT obj d h
    unfold apply_transaction
    rw [h]
  · intro bytes obj l o' hobj hrep
    unfold Transactions.unpack
    simp only [hobj]
    have h := unpackLoop_stops txs l obj o' [] hrep
    simpa using h

theorem replay_error_semantics_witness :
    demoTxs.unpack demoPI [7] ([⟨1, [5]⟩] ++ ⟨99, [1]⟩ :: []) =
      .error .TransactionUnregistered :=
  (replay_error_semantics demoTxs demoPI).2.1 [7] [7] [⟨1, [5]⟩] 99 [1] []
    [7, 5] rfl rfl rfl

/-- C5: packing an object, writing it as a snapshot, and reloading plus
replaying the resulting empty log yields the object back, assuming
unpack inverts pack at that object: initializing over an empty file
system stores and returns the default value, leaving the main file a
single snapshot chunk; a second initialization over that file loads it
and reconstructs the default value unchanged. -/
theorem snapshot_roundtrip_default_init {T : Type} (PI : PackableImpl T)
    (d : T) (p : List Nat) (txs : Transactions T)
    (hpack : PI.pack d = some p) (hunpack : PI.unpack p = some d)
    (hlen : p.length < 4294967296) :
    Protium.new PI d (FileStorage.new none none) txs =
      .ok ⟨d, ⟨some (encodeChunk p), none, true, false, 0⟩, txs⟩ ∧
    Protium.new PI d (FileStorage.new (some (encodeChunk p)) none) txs =
      .ok ⟨d, ⟨some (encodeChunk p), none, true, true, 0⟩, txs⟩ := by
  constructor
  · have hstore := store_object_clean
      (s := FileStorage.new none none) rfl p
    simp only [Protium.new, FileStorage.new, FileStorage.load]
    rw [hpack]
    simp [FileStorage.new] at hstore
    simp [hstore]
  · simp only [Protium.new, FileStorage.new, FileStorage.load]
    rw [loadBytes_chunk hlen]
    simp [Transactions.unpack, hunpack, Transactions.unpackLoop]

theorem snapshot_roundtrip_default_init_witness :
    Protium.new demoPI [] (FileStorage.new none none) demoTxs =
      .ok ⟨[], ⟨some (encodeChunk []), none, true, false, 0⟩, demoTxs⟩ ∧
    Protium.new demoPI [] (FileStorage.new (some (encodeChunk [])) none)
        demoTxs =
      .ok ⟨[], ⟨some (encodeChunk []), none, true, true, 0⟩, demoTxs⟩ :=
  snapshot_roundtrip_default_init demoPI [] [] demoTxs rfl rfl (by decide)

/-- C8: `Protium::apply` panics (modelled as `none`) exactly on an
unregistered key, before touching the object or the storage; on a
registered key it first applies the transaction to the in-memory
object and only then calls `store_data` on the mutated object,
returning that result; concretely, a failing transaction pack surfaces
the transaction-pack error while the in-memory object already carries
the mutation and the file is unchanged. -/
theorem apply_panic_and_mutation_order :
    (∀ {T R : Type} (PI : PackableImpl T) (p : Protium T)
       (RT : TransactionImpl T R) (r : R),
      p.transactions.is_transaction_registered RT.key = false →
      Protium.apply PI p RT r = none) ∧
    (∀ {T R : Type} (PI : PackableImpl T) (p : Protium T)
       (RT : TransactionImpl T R) (r : R),
      p.transactions.is_transaction_registered RT.key = true →
      ∃ (q : Protium T) (res : Except Error Unit),
        Protium.apply PI p RT r = some (q, res) ∧
        q.object = RT.apply r p.object ∧
        q.storage = (p.storage.store_data (PI.pack (RT.apply r p.object)) RT.key (RT.pack r)).1 ∧
        q.transactions = p.transactions ∧
        res = (p.storage.store_data (PI.pack (RT.apply r p.object)) RT.key (RT.pack r)).2) ∧
    ((Protium.apply demoPI
        ⟨[9], ⟨some (encodeChunk [9]), none, true, false, 0⟩, demoTxs⟩
        demoAddBad 5).map
      (fun q => (q.1.object, q.1.storage.main, q.2)) =
      some ([9, 5], some (encodeChunk [9]), .error .TransactionPack)) := by
  refine ⟨?_, ?_, by decide⟩
  · intro T R PI p RT r h
    simp [Protium.apply, h]
  · intro T R PI p RT r h
    unfold Protium.apply
    rw [if_neg (by simp [h])]
    exact ⟨_, _, rfl, rfl, rfl, rfl, rfl⟩

theorem apply_panic_and_mutation_order_witness :
    Protium.apply demoPI ⟨[], FileStorage.new none none, demoTxs⟩
      demoUnreg 1 = none :=
  apply_panic_and_mutation_order.1 demoPI
    ⟨[], FileStorage.new none none, demoTxs⟩ demoUnreg 1 (by decide)

/-- C9 (amended): immediately after bare construction the pending
counter is 0 regardless of the file contents, so the claimed invariant
fails there (see the counterexample); the invariant does hold for every
state reachable by performing the initial load after a construction
with no stale temporary file and then any sequence of successful
`store_object` and `store_data` calls whose packed sizes and keys fit
the u32 fields: in all such states the pending-entry counter equals the
number of log-entry chunks physically present after the snapshot. -/
theorem pending_counter_invariant_reachable {s : FileStorage}
    (h : ReachableFS s) : s.transaction_count = physCount s :=
  (reachable_inv h).2.1

/-- C9 counterexample: a freshly constructed storage over an existing
file holding a snapshot and one log entry has counter 0 while one entry
is physically present, so the invariant does not hold at every point of
the lifetime. -/
theorem pending_counter_after_new_cex :
    ¬ ((FileStorage.new (some (encodeChunk [3] ++ encodeEntry ⟨1, [5]⟩))
        none).transaction_count =
      physCount (FileStorage.new (some (encodeChunk [3] ++
        encodeEntry ⟨1, [5]⟩)) none)) := by
  decide

theorem pending_counter_invariant_witness :
    ((FileStorage.new (some (encodeChunk [3] ++ encodeEntry ⟨1, [5]⟩))
        none).load).1.transaction_count =
      physCount ((FileStorage.new (some (encodeChunk [3] ++
        encodeEntry ⟨1, [5]⟩)) none).load).1 :=
  pending_counter_invariant_reachable
    (ReachableFS.init (some (encodeChunk [3] ++ encodeEntry ⟨1, [5]⟩)))

/-- C10: dispatch is keyed solely by the numeric key, not by type
identity: registration makes any transaction type with the same key
count as registered, so `apply` with such a type does not panic, and
replay of a stored entry with that key applies the registered closure,
whatever type produced the bytes: the registry holding only `demoAdd`
accepts `demoOther` (same key 1, different semantics) and replays its
entry with the append semantics of `demoAdd`, not the prepend semantics
of `demoOther`. -/
theorem dispatch_by_numeric_key :
    (∀ {T R : Type} (RT : TransactionImpl T R) (txs txs' : Transactions T),
      txs.register RT = some txs' → ∀ k, k = RT.key →
      txs'.is_transaction_registered k = true) ∧
    (∀ {T R : Type} (PI : PackableImpl T) (p : Protium T)
       (RT : TransactionImpl T R) (r : R),
      p.transactions.is_transaction_registered RT.key = true →
      (Protium.apply PI p RT r).isSome = true) ∧
    demoTxs.is_transaction_registered demoOther.key = true ∧
    demoTxs.unpackLoop [9] [⟨demoOther.key, [5]⟩] = .ok [9, 5] ∧
    demoTxs.unpackLoop [9] [⟨demoOther.key, [5]⟩] ≠
      .ok (demoOther.apply 5 [9]) := by
  refine ⟨?_, ?_, by decide, by decide, by decide⟩
  · intro T R RT txs txs' hreg k hkey
    subst hkey
    unfold Transactions.register at hreg
    by_cases hdup : (txs.transactions.lookup RT.key).isSome = true
    · rw [if_pos hdup] at hreg
      cases hreg
    · rw [if_neg hdup] at hreg
      rw [Option.some.injEq] at hreg
      subst hreg
      unfold Transactions.is_transaction_registered
      exact lookup_self_append txs.transactions RT.key _
  · intro T R PI p RT r h
    simp [Protium.apply, h]

theorem dispatch_by_numeric_key_witness :
    demoTxs.is_transaction_registered 1 = true :=
  dispatch_by_numeric_key.1 demoAdd (Transactions.new (List Nat)) demoTxs
    rfl 1 rfl

end Protium
